import Mathlib

/-!
Shallow embedding of the dual-tree complex wavelet module
`src/waveline/dualtree.py`, together with a model of the external
single-tree wavelet library it builds on (`dwt`, `idwt`, `wavedec`,
`waverec`, `dwt_max_level`, `Wavelet`) and of the external dual-tree
filter-bank database (`dualtree_wavelet`).  The library and the
database are out of scope for the repository (its spec lists them as
external collaborators), so they are modelled from the spec's
description of their interface; the database is kept abstract as a
function parameter `dtw` so all results hold for every filter-bank
database.

Machine floats are modelled by exact rationals.  Numpy values of rank
at most one are modelled by an explicit sum type that distinguishes
0-d arrays (scalars) from 1-d arrays, because the module's level-0
code path produces 0-d values whose behaviour matters.  Fallible code
returns `Except`.
-/

set_option autoImplicit false

/-- Error taxonomy for the Python exceptions that the module and the
external library can raise: `ValueError`, `NotImplementedError`,
`TypeError` (e.g. `len` of an unsized 0-d array), `IndexError`. -/
inductive Err
  | valueError
  | notImplementedError
  | typeError
  | indexError
  deriving DecidableEq

/-- Wavelet object: a named filter bank of four coefficient sequences
(decomposition low/high pass, reconstruction low/high pass), as in the
external library's `Wavelet` class. -/
structure Wavelet where
  name : String
  dec_lo : List ℚ
  dec_hi : List ℚ
  rec_lo : List ℚ
  rec_hi : List ℚ
  deriving DecidableEq

/-- Numpy value of rank at most 1: real or complex, 0-d (scalar) or
1-d (vector).  Complex numbers are (re, im) pairs of rationals. -/
inductive PyArr
  | rscalar (x : ℚ)
  | rvec (l : List ℚ)
  | cscalar (re im : ℚ)
  | cvec (l : List (ℚ × ℚ))
  deriving DecidableEq

/-- Decomposition-level argument: the string sentinel `'max'` or an
integer (Python integers may be negative, hence `ℤ`). -/
inductive Lvl
  | max
  | int (l : ℤ)
  deriving DecidableEq

/-- Dynamic return value of `dtanalysis`: the bare input array (the
level-0 path returns `data` itself) or a list of coefficient arrays. -/
inductive DTOut
  | rawData (d : List ℚ)
  | coeffs (cs : List PyArr)
  deriving DecidableEq

/-- Extension mode constant of the module (`EXTENSION_MODE = 'symmetric'`). -/
def EXTENSION_MODE : String := "symmetric"

/-- Modelled from the spec: half-sample symmetric boundary extension of
a finite signal, the `'symmetric'` mode of the external library that
the module fixes.  The extended signal has period `2n` with a mirror
at each end; indexing is total over `ℤ`. -/
def symExtGet (l : List ℚ) (i : ℤ) : ℚ :=
  if l.length = 0 then 0
  else
    let j := (i % (2 * (l.length : ℤ))).toNat
    if j < l.length then l.getD j 0 else l.getD (2 * l.length - 1 - j) 0

/-- Modelled from the spec: output length of the external library's
single-level decomposition for a length-`n` input and a length-`L`
filter under a non-periodic extension mode. -/
def dwtLen (n L : ℕ) : ℕ := (n + L - 1) / 2

/-- Modelled from the spec: the external library's single-level
decomposition `dwt(data, wavelet, mode) -> (approx, detail)` on a 1-d
signal: convolution of the symmetrically extended signal with the two
decomposition filters, downsampled by two. -/
def dwt1 (data : List ℚ) (w : Wavelet) (mode : String) : List ℚ × List ℚ :=
  (((List.range (dwtLen data.length w.dec_lo.length)).map fun (k : ℕ) =>
      (((List.range w.dec_lo.length).map fun (t : ℕ) =>
        w.dec_lo.getD t 0 * symExtGet data (2 * (k : ℤ) + 1 - (t : ℤ))).sum)),
   ((List.range (dwtLen data.length w.dec_lo.length)).map fun (k : ℕ) =>
      (((List.range w.dec_lo.length).map fun (t : ℕ) =>
        w.dec_hi.getD t 0 * symExtGet data (2 * (k : ℤ) + 1 - (t : ℤ))).sum)))

/-- Modelled from the spec: the external library's multilevel
decomposition `wavedec(data, wavelet, mode, level)`, returning
`[cA_n, cD_n, ..., cD_1]`; a requested level of `0` returns `[data]`. -/
def wavedec (w : Wavelet) (mode : String) : ℕ → List ℚ → List (List ℚ)
  | 0, data => [data]
  | k + 1, data =>
      wavedec w mode k (dwt1 data w mode).1 ++ [(dwt1 data w mode).2]

/-- Zero-padded upsampling-by-two lookup used by the modelled inverse
transform. -/
def upGet (l : List ℚ) (k : ℕ) : ℚ := if k % 2 = 0 then l.getD (k / 2) 0 else 0

/-- Modelled from the spec: value part of the external library's
single-level inverse transform on equal-length coefficient arrays;
the output has length `2*m + 2 - L` for input length `m` and filter
length `L` (the library's length formula for non-periodic modes). -/
def idwtCore (a d : List ℚ) (w : Wavelet) : List ℚ :=
  (List.range (2 * a.length + 2 - w.rec_lo.length)).map fun j =>
    (((List.range w.rec_lo.length).map fun t =>
      w.rec_lo.getD t 0 * upGet a (j + t) + w.rec_hi.getD t 0 * upGet d (j + t)).sum)

/-- Python `len` on a rank-at-most-1 numpy value: raises `TypeError`
on a 0-d array (`len() of unsized object`). -/
def pyLen : PyArr → Except Err ℕ
  | .rvec l => .ok l.length
  | .cvec l => .ok l.length
  | _ => .error .typeError

/-- Python slicing `a[:-1]` on a rank-at-most-1 numpy value. -/
def pyTrim : PyArr → PyArr
  | .rvec l => .rvec l.dropLast
  | .cvec l => .cvec l.dropLast
  | a => a

/-- Numpy `real` on a rank-at-most-1 value. -/
def pyRe : PyArr → PyArr
  | .rscalar x => .rscalar x
  | .rvec l => .rvec l
  | .cscalar re _ => .rscalar re
  | .cvec l => .rvec (l.map Prod.fst)

/-- Numpy `imag` on a rank-at-most-1 value (zero for real input). -/
def pyIm : PyArr → PyArr
  | .rscalar _ => .rscalar 0
  | .rvec l => .rvec (l.map fun _ => 0)
  | .cscalar _ im => .rscalar im
  | .cvec l => .rvec (l.map Prod.snd)

/-- Numpy `size` of a rank-at-most-1 value. -/
def pySize : PyArr → ℕ
  | .rscalar _ => 1
  | .cscalar _ _ => 1
  | .rvec l => l.length
  | .cvec l => l.length

/-- Modelled from the spec: the external library's single-level
inverse `idwt(cA, cD, wavelet, mode)`: requires two 1-d coefficient
arrays of equal length (`ValueError` otherwise, as for any shape
mismatch in the library). -/
def idwtPy (a d : PyArr) (w : Wavelet) (mode : String) : Except Err (List ℚ) :=
  match a, d with
  | .rvec la, .rvec ld =>
      if la.length = ld.length then .ok (idwtCore la ld w) else .error .valueError
  | _, _ => .error .valueError

/-- Modelled from the spec: one step of the external library's
multilevel reconstruction loop: compare lengths (a `len` call, which
raises `TypeError` on 0-d input), trim the running approximation by
one sample when it is one longer than the detail, then invert one
level. -/
def waverecStep (w : Wavelet) (mode : String) (a d : PyArr) : Except Err PyArr := do
  let aL ← pyLen a
  let dL ← pyLen d
  let a2 := if aL = dL + 1 then pyTrim a else a
  let r ← idwtPy a2 d w mode
  pure (.rvec r)

/-- Modelled from the spec: the external library's multilevel
reconstruction `waverec(coeffs, wavelet, mode)`: an empty coefficient
list is a `ValueError`, a singleton is returned unchanged, otherwise
the inverse levels are folded over the detail arrays. -/
def waverecPy (coeffs : List PyArr) (w : Wavelet) (mode : String) : Except Err PyArr :=
  match coeffs with
  | [] => .error .valueError
  | [a] => .ok a
  | a :: ds => ds.foldlM (waverecStep w mode) a

/-- Fuel-driven floor base-2 logarithm (structural recursion so the
kernel can evaluate it). -/
def log2floor : ℕ → ℕ → ℕ
  | 0, _ => 0
  | fuel + 1, n => if 2 ≤ n then log2floor fuel (n / 2) + 1 else 0

/-- Modelled from the spec: the external library's
`dwt_max_level(data_len, filter_len)`: zero when the data is shorter
than `filter_len - 1`, otherwise the floor base-2 logarithm of
`data_len / (filter_len - 1)`. -/
def dwt_max_level (dataLen filterLen : ℕ) : ℕ :=
  if filterLen < 2 then 0
  else if dataLen < filterLen - 1 then 0
  else log2floor dataLen (dataLen / (filterLen - 1))

/-- Shift rule of `dt_first_stage` applied to one filter sequence:
`bank[1:], bank[0] = bank[:-1], 0` turns `b` into `0 :: b.dropLast`
(the final element is discarded, a zero is inserted at index 0). -/
def shiftBank (b : List ℚ) : List ℚ := 0 :: b.dropLast

/-- Wavelet built from the four shifted filter sequences, keeping the
original name (dualtree.py line 213). -/
def shiftWavelet (w : Wavelet) : Wavelet :=
  ⟨w.name, shiftBank w.dec_lo, shiftBank w.dec_hi, shiftBank w.rec_lo, shiftBank w.rec_hi⟩

/-- Embedding of `dt_first_stage(wavelet)` (dualtree.py lines 194-215):
returns the input wavelet and a second wavelet whose four filter
sequences are each shifted by one index.  On an empty filter sequence
the Python assignment `bank[0] = 0` raises `IndexError`. -/
def dt_first_stage (wavelet : Wavelet) : Except Err (Wavelet × Wavelet) :=
  if wavelet.dec_lo = [] ∨ wavelet.dec_hi = [] ∨ wavelet.rec_lo = [] ∨ wavelet.rec_hi = [] then
    .error .indexError
  else
    .ok (wavelet, shiftWavelet wavelet)

/-- Embedding of `dt_max_level(data, first_stage, wavelet)` (dualtree.py
lines 168-192): the library's maximum level for the data length and
the widest of the three decomposition filters.  `dtw` is the external
dual-tree filter-bank database `dualtree_wavelet`. -/
def dt_max_level (dtw : String → Wavelet × Wavelet) (data : List ℚ)
    (first_stage : Wavelet) (wavelet : String) : ℕ :=
  let rw := (dtw wavelet).1
  let iw := (dtw wavelet).2
  dwt_max_level data.length (max (max rw.dec_lo.length iw.dec_lo.length) first_stage.dec_lo.length)

/-- Embedding of `_dt_analysis_tree(data, first_stage, wavelet, level,
mode)` (dualtree.py lines 314-321): one first-stage decomposition, a
multilevel decomposition of the approximation at depth `level - 1`,
and the first-stage detail appended last.  For `level = 0` the library
call `wavedec(..., level = -1)` raises `ValueError`. -/
def dtAnalysisTree (data : List ℚ) (first_stage wav : Wavelet) (level : ℕ)
    (mode : String) : Except Err (List (List ℚ)) :=
  let p := dwt1 data first_stage mode
  if level = 0 then .error .valueError
  else .ok (wavedec wav mode (level - 1) p.1 ++ [p.2])

/-- Elementwise complex combination loop of `dtanalysis` (dualtree.py
lines 265-267): `real + 1j*imag` over the zipped per-tree coefficient
lists; a numpy shape mismatch inside an entry is a `ValueError`. -/
def combineTrees (t1 t2 : List (List ℚ)) : Except Err (List PyArr) :=
  (t1.zip t2).mapM fun p =>
    if p.1.length = p.2.length then .ok (PyArr.cvec (p.1.zip p.2)) else .error .valueError

/-- Tree-running body of `dtanalysis` for a resolved positive level
(dualtree.py lines 260-268). -/
def dtanalysisCore (dtw : String → Wavelet × Wavelet) (data : List ℚ)
    (real_first imag_first : Wavelet) (wavelet : String) (lv : ℕ) (mode : String) :
    Except Err DTOut := do
  let t1 ← dtAnalysisTree data real_first (dtw wavelet).1 lv mode
  let t2 ← dtAnalysisTree data imag_first (dtw wavelet).2 lv mode
  let cs ← combineTrees t1 t2
  pure (.coeffs cs)

/-- Embedding of `dtanalysis(data, first_stage, wavelet, level, mode)`
(dualtree.py lines 218-268) on 1-d data: resolve the first-stage pair,
then `level == 'max'` resolves through `dt_max_level` (with no further
zero check), a negative level raises `ValueError`, level `0` returns
the bare input array, and a positive level runs the two trees. -/
def dtanalysis (dtw : String → Wavelet × Wavelet) (data : List ℚ)
    (first_stage : Wavelet) (wavelet : String) (level : Lvl) (mode : String) :
    Except Err DTOut := do
  let fp ← dt_first_stage first_stage
  match level with
  | .max =>
      dtanalysisCore dtw data fp.1 fp.2 wavelet (dt_max_level dtw data first_stage wavelet) mode
  | .int l =>
      if l < 0 then .error .valueError
      else if l = 0 then pure (.rawData data)
      else dtanalysisCore dtw data fp.1 fp.2 wavelet l.toNat mode

/-- Embedding of `_dt_synthesis_tree(coeffs, first_stage, wavelet, mode)`
(dualtree.py lines 323-333): split off the first-stage detail, run the
multilevel reconstruction, trim one sample when it is one longer than
the detail (the length comparison is a `len` call, `TypeError` on 0-d
entries), and finish with one first-stage inverse step. -/
def dtSynthesisTree (coeffs : List PyArr) (first wav : Wavelet) (mode : String) :
    Except Err (List ℚ) :=
  match coeffs.getLast? with
  | none => .error .indexError
  | some d => do
      let ls ← waverecPy coeffs.dropLast wav mode
      let lsL ← pyLen ls
      let dL ← pyLen d
      let ls2 := if lsL = dL + 1 then pyTrim ls else ls
      idwtPy ls2 d first mode

/-- Final averaging `0.5*(real + imag)` of `dtsynthesis` (dualtree.py
line 312); a numpy shape mismatch is a `ValueError`. -/
def npMean (r m : List ℚ) : Except Err (List ℚ) :=
  if r.length = m.length then .ok (List.zipWith (fun a b => (1 / 2 : ℚ) * (a + b)) r m)
  else .error .valueError

/-- Embedding of `dtsynthesis(coeffs, first_stage, wavelet, mode)`
(dualtree.py lines 270-312): resolve the wavelet pairs, fail with
`ValueError` on an empty coefficient list, return a singleton entry
unchanged, otherwise split real/imaginary parts, run the two synthesis
trees and average them. -/
def dtsynthesis (dtw : String → Wavelet × Wavelet) (coeffs : List PyArr)
    (first_stage : Wavelet) (wavelet : String) (mode : String) : Except Err PyArr := do
  let fp ← dt_first_stage first_stage
  match coeffs with
  | [] => .error .valueError
  | [c] => pure c
  | _ :: _ :: _ =>
      let rc := coeffs.map pyRe
      let ic := coeffs.map pyIm
      let r ← dtSynthesisTree rc fp.1 (dtw wavelet).1 mode
      let m ← dtSynthesisTree ic fp.2 (dtw wavelet).2 mode
      let s ← npMean r m
      pure (.rvec s)

/-- Input array of `dt_approx_rec` / `dtanalysis` with its rank: a 1-d
signal, a 2-d image, or an array of rank `3 + extra` (the module only
ever inspects whether the rank exceeds 2, so higher-rank contents are
irrelevant). -/
inductive NDData
  | d1 (l : List ℚ)
  | d2 (m : List (List ℚ))
  | dH (extra : ℕ)
  deriving DecidableEq

/-- Numpy `ndim` of an `NDData` value. -/
def NDData.ndim : NDData → ℕ
  | .d1 _ => 1
  | .d2 _ => 2
  | .dH extra => extra + 3

/-- Smallest entry of the numpy shape of an `NDData` value (used by
`dt_max_level`, which takes `min(data.shape)`); a 2-d array of rows of
a common width has shape (rows, width). -/
def NDData.minShape : NDData → ℕ
  | .d1 l => l.length
  | .d2 m => min m.length (m.headD []).length
  | .dH _ => 0

/-- Dynamic return value of `dtanalysis` on arbitrary-rank input. -/
inductive DTOutND
  | rawND (d : NDData)
  | coeffsND (cs : List PyArr)
  deriving DecidableEq

/-- Embedding of `dtanalysis` as called on input of arbitrary rank
(dualtree.py lines 218-268).  The function body contains no
dimensionality check of its own: for a positive level on non-1-d data
the failure comes from the external library's 1-d-only `dwt` inside
`_dt_analysis_tree`, which raises the library's `ValueError`. -/
def dtanalysisND (dtw : String → Wavelet × Wavelet) (data : NDData)
    (first_stage : Wavelet) (wavelet : String) (level : Lvl) (mode : String) :
    Except Err DTOutND := do
  match data with
  | .d1 l =>
      (dtanalysis dtw l first_stage wavelet level mode).map fun o =>
        match o with
        | .rawData d => .rawND (.d1 d)
        | .coeffs cs => .coeffsND cs
  | _ =>
      let fp ← dt_first_stage first_stage
      let _ := fp
      match level with
      | .max => .error .valueError
      | .int l =>
          if l < 0 then .error .valueError
          else if l = 0 then pure (.rawND data)
          else .error .valueError

/-- Level resolution of `dt_approx_rec` (dualtree.py lines 124-128):
`'max'` becomes the computed maximum; an integer level above the
maximum is clamped to it (with a warning); any other integer passes
through unchanged. -/
def resolvedLevel (level : Lvl) (maxl : ℕ) : ℤ :=
  match level with
  | .max => (maxl : ℤ)
  | .int l => if (maxl : ℤ) < l then (maxl : ℤ) else l

/-- Whether `dt_approx_rec` emits the level-too-high `UserWarning`
(dualtree.py line 127). -/
def warnFlag (level : Lvl) (maxl : ℕ) : Bool :=
  match level with
  | .max => false
  | .int l => decide ((maxl : ℤ) < l)

/-- Numpy `zeros_like` on a detail coefficient entry (dualtree.py
lines 140-141): shape and dtype are preserved, values are zeroed. -/
def zeroLikeC : PyArr → PyArr
  | .rscalar _ => .rscalar 0
  | .rvec l => .rvec (l.map fun _ => 0)
  | .cscalar _ _ => .cscalar 0 0
  | .cvec l => .cvec (l.map fun _ => (0, 0))

/-- Size reconciliation of `dt_approx_rec` (dualtree.py lines 150-166):
equal sizes are returned as-is, longer reconstructions are truncated
to the input length, shorter ones are copied into a zero array of the
input's shape and dtype.  Slicing a 0-d reconstruction raises
`TypeError`; `reconstructed.shape[0]` on a 0-d value raises
`IndexError`; assigning complex values into the real zero array
discards the imaginary part (numpy's `ComplexWarning` cast). -/
def reconcile (orig : List ℚ) (recon : PyArr) : Except Err PyArr :=
  if pySize recon = orig.length then .ok recon
  else if orig.length < pySize recon then
    match recon with
    | .rvec l => .ok (.rvec (l.take orig.length))
    | .cvec l => .ok (.cvec (l.take orig.length))
    | _ => .error .typeError
  else
    match recon with
    | .rvec l => .ok (.rvec (l ++ List.replicate (orig.length - l.length) 0))
    | .cvec l => .ok (.rvec (l.map Prod.fst ++ List.replicate (orig.length - (l.map Prod.fst).length) 0))
    | _ => .error .indexError

/-- Coefficient-zeroing and synthesis part of `dt_approx_rec`
(dualtree.py lines 132-148), applied to the dynamic result of
`dtanalysis`.  Python indexes the result uniformly with `coeffs[0]`
and `coeffs[1:]`: on the bare array returned by the level-0 path this
takes the first array element (a 0-d scalar) as the approximation and
iterates over the remaining scalars, so `zeros_like` then produces 0-d
detail entries; on an empty array or list, `coeffs[0]` raises
`IndexError`. -/
def approxSynth (dtw : String → Wavelet × Wavelet) (out : DTOut)
    (first_stage : Wavelet) (wavelet : String) : Except Err PyArr :=
  match out with
  | .rawData d =>
      match d with
      | [] => .error .indexError
      | x :: rest =>
          dtsynthesis dtw (PyArr.rscalar x :: rest.map fun _ => PyArr.rscalar 0)
            first_stage wavelet EXTENSION_MODE
  | .coeffs cs =>
      match cs with
      | [] => .error .indexError
      | app :: dets =>
          dtsynthesis dtw (app :: dets.map zeroLikeC) first_stage wavelet EXTENSION_MODE

/-- Embedding of `dt_approx_rec(array, level, first_stage, wavelet,
mask)` (dualtree.py lines 80-166): rank checks, level resolution with
clamp-and-warn, dual-tree analysis, zeroing of all detail
coefficients, dual-tree synthesis, and size reconciliation.  The
boolean in the result records whether the level-too-high warning was
emitted.  The `mask` parameter is accepted but never read. -/
def dt_approx_rec (dtw : String → Wavelet × Wavelet) (array : NDData) (level : Lvl)
    (first_stage : Wavelet) (wavelet : String) (mask : List Bool) :
    Except Err (PyArr × Bool) :=
  match array with
  | .dH _ => .error .valueError
  | .d2 _ => .error .notImplementedError
  | .d1 data => do
      let maxl := dt_max_level dtw data first_stage wavelet
      let lv := resolvedLevel level maxl
      let out ← dtanalysis dtw data first_stage wavelet (.int lv) EXTENSION_MODE
      let recon ← approxSynth dtw out first_stage wavelet
      let res ← reconcile data recon
      pure (res, warnFlag level maxl)

/-- Background-region index specifier of `dt_baseline`: a single index
or a contiguous slice (1-d case). -/
inductive BgRegion
  | single (i : ℕ)
  | sl (a b : ℕ)
  deriving DecidableEq

/-- Whether a background-region specifier covers sample index `i`. -/
def BgRegion.covers : BgRegion → ℕ → Bool
  | .single j, i => i = j
  | .sl a b, i => a ≤ i ∧ i < b

/-- One assignment `signal[index] = array[index]` of the
background-region loop (dualtree.py lines 66-67): a plain index out of
range raises `IndexError`; a slice clips silently. -/
def applyRegion (arr sig : List ℚ) : BgRegion → Except Err (List ℚ)
  | .single i =>
      if i < sig.length then
        .ok ((List.range sig.length).map fun j => if j = i then arr.getD j 0 else sig.getD j 0)
      else .error .indexError
  | .sl a b =>
      .ok ((List.range sig.length).map fun j =>
        if a ≤ j ∧ j < b then arr.getD j (sig.getD j 0) else sig.getD j 0)

/-- Background-region loop of one baseline iteration (dualtree.py
lines 66-67). -/
def applyBgAll (arr : List ℚ) (bg : List BgRegion) (sig : List ℚ) : Except Err (List ℚ) :=
  bg.foldlM (fun s r => applyRegion arr s r) sig

/-- Clamp step `signal[signal > background] = background[...]`
(dualtree.py line 74): pointwise minimum with the background; numpy
broadcasts a 0-d background and rejects other shape mismatches. -/
def clampPy (sig : List ℚ) (background : PyArr) : Except Err (List ℚ) :=
  match background with
  | .rvec b =>
      if b.length = sig.length then
        .ok (List.zipWith (fun s bb => if bb < s then bb else s) sig b)
      else .error .valueError
  | .rscalar x => .ok (sig.map fun s => if x < s then x else s)
  | _ => .error .typeError

/-- One iteration of the `dt_baseline` loop (dualtree.py lines 62-74):
pin the background regions to the original array, recompute the
background by approximation-only reconstruction, then clamp the
working signal down to it.  Returns the new working signal and the
background. -/
def dtBaselineStep (dtw : String → Wavelet × Wavelet) (arr : List ℚ) (level : Lvl)
    (first_stage : Wavelet) (wavelet : String) (bg : List BgRegion) (mask : List Bool)
    (signal : List ℚ) : Except Err (List ℚ × PyArr) := do
  let s1 ← applyBgAll arr bg signal
  let p ← dt_approx_rec dtw (.d1 s1) level first_stage wavelet mask
  let s2 ← clampPy s1 p.1
  pure (s2, p.1)

/-- The `for i in range(max_iter)` loop of `dt_baseline`. -/
def baselineIter (dtw : String → Wavelet × Wavelet) (arr : List ℚ) (level : Lvl)
    (first_stage : Wavelet) (wavelet : String) (bg : List BgRegion) (mask : List Bool) :
    ℕ → List ℚ × PyArr → Except Err (List ℚ × PyArr)
  | 0, st => .ok st
  | k + 1, st => do
      let st2 ← dtBaselineStep dtw arr level first_stage wavelet bg mask st.1
      baselineIter dtw arr level first_stage wavelet bg mask k st2

/-- Embedding of `dt_baseline(array, max_iter, level, first_stage,
wavelet, background_regions, mask)` on 1-d data (dualtree.py lines
10-78): run the iteration loop starting from a copy of the array and a
zero background, then force the background to exactly 0 at every
masked position (`background[mask] = 0`, which requires a mask of the
background's shape). -/
def dt_baseline (dtw : String → Wavelet × Wavelet) (arr : List ℚ) (max_iter : ℕ)
    (level : Lvl) (first_stage : Wavelet) (wavelet : String) (bg : List BgRegion)
    (mask : List Bool) : Except Err (List ℚ) := do
  let st ← baselineIter dtw arr level first_stage wavelet bg mask max_iter
    (arr, PyArr.rvec (arr.map fun _ => 0))
  match st.2 with
  | .rvec b =>
      if mask.length = b.length then
        .ok (List.zipWith (fun bb mm => if mm then 0 else bb) b mask)
      else .error .indexError
  | _ => .error .indexError

/-- One-position shift relation of the spec's shift rule: the output
has the input's length, starts with a zero, and every later entry is
the input entry one index earlier. -/
def isShiftOne (input output : List ℚ) : Prop :=
  output.length = input.length ∧ output.getD 0 1 = 0 ∧
    ∀ i, i < output.length → 1 ≤ i → output.getD i 0 = input.getD (i - 1) 0

/-- Concrete test wavelet (a length-2 filter bank) used as evaluation
witness input. -/
def wavTest : Wavelet := ⟨"w", [1 / 2, 1 / 2], [1 / 2, -1 / 2], [1, 1], [1, -1]⟩

/-- Shift of `wavTest` as produced by `dt_first_stage`. -/
def wavTestS : Wavelet := ⟨"w", [0, 1 / 2], [0, 1 / 2], [0, 1], [0, 1]⟩

/-- Concrete dual-tree filter-bank database used as evaluation witness
input. -/
def dtwTest : String → Wavelet × Wavelet := fun _ => (wavTest, wavTest)

/-- Concrete length-4 filter bank whose maximum level on a length-2
signal is zero (used for the clamp-to-zero counterexample). -/
def wavTest4 : Wavelet := ⟨"w4", [1, 2, 3, 4], [1, 2, 3, 4], [1, 2, 3, 4], [1, 2, 3, 4]⟩

/-- Database resolving every name to `wavTest4`. -/
def dtwTest4 : String → Wavelet × Wavelet := fun _ => (wavTest4, wavTest4)

/-- Length structure of a modelled `wavedec` run: `wavedecLens L k m`
lists the lengths of the coefficient arrays produced by a depth-`k`
decomposition of a length-`m` signal with a length-`L` filter. -/
def wavedecLens (L : ℕ) : ℕ → ℕ → List ℕ
  | 0, m => [m]
  | k + 1, m => wavedecLens L k (dwtLen m L) ++ [dwtLen m L]

theorem isShiftOne_shiftBank (b : List ℚ) (hb : b ≠ []) : isShiftOne b (shiftBank b) := by
  have hpos : 0 < b.length := List.length_pos.mpr hb
  refine ⟨?_, rfl, ?_⟩
  · simp only [shiftBank, List.length_cons, List.length_dropLast]
    omega
  · intro i hlen hone
    match i, hone with
    | j + 1, _ =>
      have hj : j < b.length - 1 := by
        simpa [shiftBank, List.length_dropLast] using hlen
      have hjb : j < b.length := by omega
      have hjd : j < b.dropLast.length := by simpa [List.length_dropLast] using hj
      have h1 : (shiftBank b).getD (j + 1) 0 = b.dropLast.getD j 0 := rfl
      rw [h1, Nat.add_sub_cancel, List.getD_eq_getElem _ _ hjd,
        List.getD_eq_getElem _ _ hjb]
      exact List.getElem_dropLast b j hjd

/-- C4: `dt_first_stage` returns the original wavelet unchanged as tree
1 together with a second wavelet each of whose four filter sequences
satisfies the drop-last, zero-in-front shift rule (length preserved),
and it is a pure function of its input. -/
theorem dt_first_stage_shift_spec (w : Wavelet)
    (h1 : w.dec_lo ≠ []) (h2 : w.dec_hi ≠ []) (h3 : w.rec_lo ≠ []) (h4 : w.rec_hi ≠ []) :
    ∃ w2, dt_first_stage w = .ok (w, w2) ∧ isShiftOne w.dec_lo w2.dec_lo ∧
      isShiftOne w.dec_hi w2.dec_hi ∧ isShiftOne w.rec_lo w2.rec_lo ∧
      isShiftOne w.rec_hi w2.rec_hi := by
  refine ⟨⟨w.name, shiftBank w.dec_lo, shiftBank w.dec_hi, shiftBank w.rec_lo,
    shiftBank w.rec_hi⟩, ?_, isShiftOne_shiftBank _ h1, isShiftOne_shiftBank _ h2,
    isShiftOne_shiftBank _ h3, isShiftOne_shiftBank _ h4⟩
  simp [dt_first_stage, shiftWavelet, h1, h2, h3, h4]

/-- Witness for C4 at a concrete filter bank. -/
theorem dt_first_stage_shift_spec_witness :
    (([1, 2, 3] : List ℚ) ≠ [] ∧ ([4, 5, 6] : List ℚ) ≠ []) ∧
      ∃ w2, dt_first_stage ⟨"x", [1, 2, 3], [4, 5, 6], [1, 2, 3], [4, 5, 6]⟩ =
          .ok (⟨"x", [1, 2, 3], [4, 5, 6], [1, 2, 3], [4, 5, 6]⟩, w2) ∧
        isShiftOne [1, 2, 3] w2.dec_lo ∧ isShiftOne [4, 5, 6] w2.dec_hi ∧
        isShiftOne [1, 2, 3] w2.rec_lo ∧ isShiftOne [4, 5, 6] w2.rec_hi :=
  ⟨⟨by decide, by decide⟩,
    dt_first_stage_shift_spec ⟨"x", [1, 2, 3], [4, 5, 6], [1, 2, 3], [4, 5, 6]⟩
      (by decide) (by decide) (by decide) (by decide)⟩

/-- C10: the `mask` parameter of `dt_approx_rec` is accepted but never
read, so the result is identical for any two masks (including the
all-false default standing in for `None`). -/
theorem dt_approx_rec_mask_noninterference (dtw : String → Wavelet × Wavelet)
    (array : NDData) (level : Lvl) (first_stage : Wavelet) (wavelet : String)
    (m1 m2 : List Bool) :
    dt_approx_rec dtw array level first_stage wavelet m1 =
      dt_approx_rec dtw array level first_stage wavelet m2 := rfl

/-- C2 (code bug): at level 0, `dtanalysis` returns the bare input
array unchanged rather than a length-1 coefficient list, and
`dt_approx_rec` on an all-zero length-4 array at level 0 consequently
fails with a `TypeError` deep in the synthesis tree (the coefficient
entries have become 0-d scalars) instead of returning the all-zero
array unchanged. -/
theorem dt_approx_rec_level0_fails_on_zeros :
    dtanalysis dtwTest [0, 0, 0, 0] wavTest "qshift_a" (.int 0) EXTENSION_MODE =
        .ok (.rawData [0, 0, 0, 0]) ∧
      dt_approx_rec dtwTest (.d1 [0, 0, 0, 0]) (.int 0) wavTest "qshift_a"
        [false, false, false, false] = .error .typeError :=
  ⟨rfl, rfl⟩

/-- Counterexample for C3: on a concrete 2-d input with level 1,
`dtanalysis` does not fail with a not-implemented error; the failure
is the external library's `ValueError` from its 1-d-only `dwt` (the
function body has no dimensionality check of its own). -/
theorem dtanalysis_2d_error_is_not_notImplemented :
    dtanalysisND dtwTest (.d2 [[0, 0], [0, 0]]) wavTest "qshift_a" (.int 1)
        EXTENSION_MODE = .error .valueError ∧
      Err.valueError ≠ Err.notImplementedError :=
  ⟨rfl, by decide⟩

/-- C3 (amended): the dimensionality rejections live in
`dt_approx_rec`, not `dtanalysis`: every 2-d input fails there with
`NotImplementedError` and every input of rank greater than 2 fails
there with `ValueError`, before any other work. -/
theorem dt_approx_rec_rejects_high_dimensions (dtw : String → Wavelet × Wavelet)
    (m : List (List ℚ)) (extra : ℕ) (level : Lvl) (first_stage : Wavelet)
    (wavelet : String) (mask : List Bool) :
    dt_approx_rec dtw (.d2 m) level first_stage wavelet mask = .error .notImplementedError ∧
      dt_approx_rec dtw (.dH extra) level first_stage wavelet mask = .error .valueError :=
  ⟨rfl, rfl⟩

/-- Bind of a successful `Except` computation reduces to the
continuation. -/
theorem bind_ok_eq {α β : Type} (a : α) (f : α → Except Err β) :
    (Except.ok a : Except Err α) >>= f = f a := rfl

/-- The `pure` of the `Except` monad is `Except.ok`. -/
theorem pure_eq_ok {α : Type} (a : α) : (pure a : Except Err α) = Except.ok a := rfl

/-- C6: `dtsynthesis` fails with `ValueError` on an empty coefficient
list, returns the single entry unchanged for a one-entry list, and on
a list of at least two entries returns exactly the arithmetic mean
(0.5 times the sum) of the two single-tree reconstructions, built from
the elementwise real and imaginary parts respectively. -/
theorem dtsynthesis_contract (dtw : String → Wavelet × Wavelet) (first_stage : Wavelet)
    (wavelet mode : String) (fp : Wavelet × Wavelet)
    (hfs : dt_first_stage first_stage = .ok fp) :
    dtsynthesis dtw [] first_stage wavelet mode = .error .valueError ∧
      (∀ c : PyArr, dtsynthesis dtw [c] first_stage wavelet mode = .ok c) ∧
      ∀ (coeffs : List PyArr) (r m : List ℚ), 2 ≤ coeffs.length →
        dtSynthesisTree (coeffs.map pyRe) fp.1 (dtw wavelet).1 mode = .ok r →
        dtSynthesisTree (coeffs.map pyIm) fp.2 (dtw wavelet).2 mode = .ok m →
        r.length = m.length →
        dtsynthesis dtw coeffs first_stage wavelet mode =
          .ok (.rvec (List.zipWith (fun a b => (1 / 2 : ℚ) * (a + b)) r m)) := by
  refine ⟨?_, ?_, ?_⟩
  · simp only [dtsynthesis, hfs, bind_ok_eq]
  · intro c
    simp only [dtsynthesis, hfs, bind_ok_eq, pure_eq_ok]
  · intro coeffs r m h2 hr hm hlen
    match coeffs, h2 with
    | a :: b :: t, _ =>
      simp only [List.map_cons] at hr hm
      simp only [dtsynthesis, hfs, bind_ok_eq, List.map_cons, hr, hm, npMean, hlen,
        eq_self_iff_true, if_true, pure_eq_ok]

/-- Witness for C6 at concrete inputs: the empty list, a singleton
scalar, and a two-entry all-zero coefficient list whose tree
reconstructions evaluate to the zero vector. -/
theorem dtsynthesis_contract_witness :
    dt_first_stage wavTest = .ok (wavTest, wavTestS) ∧
      dtsynthesis dtwTest [] wavTest "qshift_a" EXTENSION_MODE = .error .valueError ∧
      dtsynthesis dtwTest [PyArr.cscalar 3 4] wavTest "qshift_a" EXTENSION_MODE =
        .ok (.cscalar 3 4) ∧
      dtsynthesis dtwTest [PyArr.cvec [(0, 0), (0, 0)], PyArr.cvec [(0, 0), (0, 0)]]
        wavTest "qshift_a" EXTENSION_MODE = .ok (.rvec [0, 0, 0, 0]) := by
  have hfs : dt_first_stage wavTest = .ok (wavTest, wavTestS) := rfl
  have h := dtsynthesis_contract dtwTest wavTest "qshift_a" EXTENSION_MODE
    (wavTest, wavTestS) hfs
  refine ⟨hfs, h.1, h.2.1 _, ?_⟩
  have h3 := h.2.2 [PyArr.cvec [(0, 0), (0, 0)], PyArr.cvec [(0, 0), (0, 0)]]
    [0, 0, 0, 0] [0, 0, 0, 0] (by decide) (by with_unfolding_all rfl)
    (by with_unfolding_all rfl) rfl
  simpa using h3

theorem getD_maskZip (b : List ℚ) (mask : List Bool) (i : ℕ)
    (hi : i < mask.length) (hib : i < b.length) (hm : mask.getD i false = true) :
    (List.zipWith (fun bb mm => if mm then (0 : ℚ) else bb) b mask).getD i 1 = 0 := by
  have hz : i < (List.zipWith (fun bb mm => if mm then (0 : ℚ) else bb) b mask).length := by
    rw [List.length_zipWith]
    omega
  rw [List.getD_eq_getElem _ _ hz, List.getElem_zipWith]
  rw [List.getD_eq_getElem _ _ hi] at hm
  simp [hm]

/-- C8: whenever `dt_baseline` returns a result, that result is
exactly 0 at every position where the mask is `true`, regardless of
the input values there (the final `background[mask] = 0` assignment). -/
theorem dt_baseline_mask_enforcement (dtw : String → Wavelet × Wavelet) (arr : List ℚ)
    (max_iter : ℕ) (level : Lvl) (first_stage : Wavelet) (wavelet : String)
    (bg : List BgRegion) (mask : List Bool) (r : List ℚ)
    (hok : dt_baseline dtw arr max_iter level first_stage wavelet bg mask = .ok r) :
    ∀ i, i < mask.length → mask.getD i false = true → r.getD i 1 = 0 := by
  intro i hi hm
  simp only [dt_baseline] at hok
  cases hb : baselineIter dtw arr level first_stage wavelet bg mask max_iter
      (arr, PyArr.rvec (arr.map fun _ => 0)) with
  | error e => rw [hb] at hok; exact absurd hok (by simp [Bind.bind, Except.bind])
  | ok st =>
      rw [hb, bind_ok_eq] at hok
      cases hst : st.2 with
      | rvec b =>
          rw [hst] at hok
          have hok2 : (if mask.length = b.length then
              Except.ok (List.zipWith (fun bb mm => if mm = true then (0 : ℚ) else bb) b mask)
            else Except.error Err.indexError) = Except.ok r := hok
          by_cases hlen : mask.length = b.length
          · rw [if_pos hlen] at hok2
            cases hok2
            exact getD_maskZip b mask i hi (by omega) hm
          · rw [if_neg hlen] at hok2
            exact absurd hok2 (by simp)
      | rscalar x => rw [hst] at hok; exact absurd hok (by simp)
      | cscalar re im => rw [hst] at hok; exact absurd hok (by simp)
      | cvec l => rw [hst] at hok; exact absurd hok (by simp)

/-- Witness for C8: a concrete run whose first input sample is 3 but
whose first mask entry is `true`, so the returned baseline is 0 there. -/
theorem dt_baseline_mask_enforcement_witness :
    dt_baseline dtwTest [3, 1, 4, 1] 1 (.int 1) wavTest "qshift_a" []
        [true, false, false, false] = .ok [0, 9 / 4, 5 / 4, 0] ∧
      (0 < 4 ∧ [true, false, false, false].getD 0 false = true) ∧
      ([(0 : ℚ), 9 / 4, 5 / 4, 0].getD 0 1 = 0) :=
  ⟨by with_unfolding_all rfl, ⟨by decide, by decide⟩,
    dt_baseline_mask_enforcement dtwTest [3, 1, 4, 1] 1 (.int 1) wavTest "qshift_a" []
      [true, false, false, false] [0, 9 / 4, 5 / 4, 0] (by with_unfolding_all rfl)
      0 (by decide) (by decide)⟩

theorem applyRegion_ok (arr sig : List ℚ) (r : BgRegion) (s1 : List ℚ)
    (hok : applyRegion arr sig r = .ok s1) :
    s1.length = sig.length ∧
      ∀ i, i < sig.length → r.covers i = false → s1.getD i 0 = sig.getD i 0 := by
  cases r with
  | single j =>
      by_cases hj : j < sig.length
      · rw [applyRegion, if_pos hj] at hok
        cases hok
        refine ⟨by simp, ?_⟩
        intro i hi hc
        have hne : ¬(i = j) := by simpa [BgRegion.covers] using hc
        have hlen : i < ((List.range sig.length).map fun k =>
            if k = j then arr.getD k 0 else sig.getD k 0).length := by simp [hi]
        rw [List.getD_eq_getElem _ _ hlen, List.getElem_map, List.getElem_range, if_neg hne]
      · rw [applyRegion, if_neg hj] at hok
        exact absurd hok (by simp)
  | sl a b =>
      rw [applyRegion] at hok
      cases hok
      refine ⟨by simp, ?_⟩
      intro i hi hc
      have hnc : ¬(a ≤ i ∧ i < b) := by simpa [BgRegion.covers] using hc
      have hlen : i < ((List.range sig.length).map fun k =>
          if a ≤ k ∧ k < b then arr.getD k (sig.getD k 0) else sig.getD k 0).length := by
        simp [hi]
      rw [List.getD_eq_getElem _ _ hlen, List.getElem_map, List.getElem_range, if_neg hnc]

theorem applyBgAll_ok (arr : List ℚ) (bg : List BgRegion) (sig s1 : List ℚ)
    (hok : applyBgAll arr bg sig = .ok s1) :
    s1.length = sig.length ∧
      ∀ i, i < sig.length → (∀ r ∈ bg, r.covers i = false) →
        s1.getD i 0 = sig.getD i 0 := by
  induction bg generalizing sig with
  | nil =>
      cases hok
      exact ⟨rfl, fun i hi hc => rfl⟩
  | cons r rest ih =>
      have hstep : applyBgAll arr (r :: rest) sig =
          applyRegion arr sig r >>= fun mid => applyBgAll arr rest mid := rfl
      rw [hstep] at hok
      cases h1 : applyRegion arr sig r with
      | error e => rw [h1] at hok; exact absurd hok (by simp [Bind.bind, Except.bind])
      | ok mid =>
          rw [h1, bind_ok_eq] at hok
          obtain ⟨hl1, hv1⟩ := applyRegion_ok arr sig r mid h1
          obtain ⟨hl2, hv2⟩ := ih mid hok
          refine ⟨hl2.trans hl1, ?_⟩
          intro i hi hc
          have him : i < mid.length := by omega
          have h3 := hv2 i him fun q hq => hc q (List.mem_cons_of_mem r hq)
          have h4 := hv1 i hi (hc r (List.mem_cons_self r rest))
          exact h3.trans h4

theorem clampPy_le (sig : List ℚ) (p : PyArr) (s2 : List ℚ)
    (hok : clampPy sig p = .ok s2) (i : ℕ) :
    s2.getD i 0 ≤ sig.getD i 0 := by
  cases p with
  | rvec b =>
      by_cases hb : b.length = sig.length
      · rw [clampPy, if_pos hb] at hok
        cases hok
        by_cases hi : i < sig.length
        · have hz : i < (List.zipWith (fun s bb => if bb < s then bb else s) sig b).length := by
            rw [List.length_zipWith]
            omega
          rw [List.getD_eq_getElem _ _ hz, List.getElem_zipWith,
            List.getD_eq_getElem _ _ hi]
          split
          · exact le_of_lt (by assumption)
          · exact le_refl _
        · have h1 : (List.zipWith (fun s bb => if bb < s then bb else s) sig b).getD i 0 = 0 := by
            apply List.getD_eq_default
            rw [List.length_zipWith]
            omega
          have h2 : sig.getD i 0 = 0 := List.getD_eq_default _ _ (by omega)
          rw [h1, h2]
      · rw [clampPy, if_neg hb] at hok
        exact absurd hok (by simp)
  | rscalar x =>
      rw [clampPy] at hok
      cases hok
      by_cases hi : i < sig.length
      · have hm : i < (sig.map fun s => if x < s then x else s).length := by simp [hi]
        rw [List.getD_eq_getElem _ _ hm, List.getElem_map, List.getD_eq_getElem _ _ hi]
        split
        · exact le_of_lt (by assumption)
        · exact le_refl _
      · have h1 : (sig.map fun s => if x < s then x else s).getD i 0 = 0 :=
          List.getD_eq_default _ _ (by simp; omega)
        have h2 : sig.getD i 0 = 0 := List.getD_eq_default _ _ (by omega)
        rw [h1, h2]
  | cscalar re im => exact absurd hok (by simp [clampPy])
  | cvec l => exact absurd hok (by simp [clampPy])

/-- C9: in one iteration of the `dt_baseline` loop, at every sample
index that is unmasked and not contained in any background region, the
working signal after the iteration is at most its value before the
iteration: the background-region pinning leaves such samples
untouched and the clamp only ever pulls values down. -/
theorem dt_baseline_step_monotone (dtw : String → Wavelet × Wavelet) (arr : List ℚ)
    (level : Lvl) (first_stage : Wavelet) (wavelet : String) (bg : List BgRegion)
    (mask : List Bool) (signal : List ℚ) (st : List ℚ × PyArr) (i : ℕ)
    (hi : i < signal.length)
    (hbg : ∀ r ∈ bg, r.covers i = false)
    (hmask : mask.getD i false = false)
    (hok : dtBaselineStep dtw arr level first_stage wavelet bg mask signal = .ok st) :
    st.1.getD i 0 ≤ signal.getD i 0 := by
  simp only [dtBaselineStep] at hok
  cases h1 : applyBgAll arr bg signal with
  | error e => rw [h1] at hok; exact absurd hok (by simp [Bind.bind, Except.bind])
  | ok s1 =>
      rw [h1, bind_ok_eq] at hok
      cases h2 : dt_approx_rec dtw (.d1 s1) level first_stage wavelet mask with
      | error e => rw [h2] at hok; exact absurd hok (by simp [Bind.bind, Except.bind])
      | ok p =>
          rw [h2, bind_ok_eq] at hok
          cases h3 : clampPy s1 p.1 with
          | error e => rw [h3] at hok; exact absurd hok (by simp [Bind.bind, Except.bind])
          | ok s2 =>
              rw [h3, bind_ok_eq, pure_eq_ok] at hok
              cases hok
              obtain ⟨hl1, hv1⟩ := applyBgAll_ok arr bg signal s1 h1
              have hle := clampPy_le s1 p.1 s2 h3 i
              have heq := hv1 i hi hbg
              exact heq ▸ hle

/-- Witness for C9: a concrete iteration step on a nonzero signal
whose working value at index 0 drops from 3 to 1. -/
theorem dt_baseline_step_monotone_witness :
    dtBaselineStep dtwTest [3, 1, 4, 1] (.int 1) wavTest "qshift_a" []
        [false, false, false, false] [3, 1, 4, 1] =
      .ok ([1, 1, 5 / 4, 0], PyArr.rvec [1, 9 / 4, 5 / 4, 0]) ∧
      (([(1 : ℚ), 1, 5 / 4, 0], PyArr.rvec [(1 : ℚ), 9 / 4, 5 / 4, 0]).1.getD 0 0 ≤
        [(3 : ℚ), 1, 4, 1].getD 0 0) :=
  ⟨by with_unfolding_all rfl,
    dt_baseline_step_monotone dtwTest [3, 1, 4, 1] (.int 1) wavTest "qshift_a" []
      [false, false, false, false] [3, 1, 4, 1]
      ([1, 1, 5 / 4, 0], PyArr.rvec [1, 9 / 4, 5 / 4, 0]) 0 (by decide)
      (by intro r hr; cases hr) (by decide) (by with_unfolding_all rfl)⟩

theorem shiftBank_length (b : List ℚ) (hb : b ≠ []) : (shiftBank b).length = b.length := by
  simp only [shiftBank, List.length_cons, List.length_dropLast]
  have := List.length_pos.mpr hb
  omega

theorem dwt1_fst_length (data : List ℚ) (w : Wavelet) (mode : String) :
    (dwt1 data w mode).1.length = dwtLen data.length w.dec_lo.length := by
  simp only [dwt1, List.length_map, List.length_range]

theorem dwt1_snd_length (data : List ℚ) (w : Wavelet) (mode : String) :
    (dwt1 data w mode).2.length = dwtLen data.length w.dec_lo.length := by
  simp only [dwt1, List.length_map, List.length_range]

theorem wavedecLens_length (L : ℕ) : ∀ (k m : ℕ), (wavedecLens L k m).length = k + 1 := by
  intro k
  induction k with
  | zero => intro m; rfl
  | succ k ih => intro m; simp [wavedecLens, ih]

theorem wavedec_length (w : Wavelet) (mode : String) :
    ∀ (k : ℕ) (a : List ℚ), (wavedec w mode k a).length = k + 1 := by
  intro k
  induction k with
  | zero => intro a; rfl
  | succ k ih => intro a; simp [wavedec, ih]

theorem wavedec_map_length (w : Wavelet) (mode : String) :
    ∀ (k : ℕ) (a : List ℚ),
      (wavedec w mode k a).map List.length = wavedecLens w.dec_lo.length k a.length := by
  intro k
  induction k with
  | zero => intro a; rfl
  | succ k ih =>
      intro a
      simp [wavedec, wavedecLens, ih, dwt1_fst_length, dwt1_snd_length]

theorem dwtLen_pos (n L : ℕ) (hn : 1 ≤ n) (hL : 2 ≤ L) : 1 ≤ dwtLen n L := by
  simp only [dwtLen]
  omega

theorem idwt_of_dwt_len (n L : ℕ) (hn : 1 ≤ n) (hL : 2 ≤ L) :
    2 * dwtLen n L + 2 - L = n ∨ 2 * dwtLen n L + 2 - L = n + 1 := by
  simp only [dwtLen]
  omega

theorem idwtCore_length (a d : List ℚ) (w : Wavelet) :
    (idwtCore a d w).length = 2 * a.length + 2 - w.rec_lo.length := by
  simp [idwtCore]

theorem wavedec_forall2 (w1 w2 : Wavelet) (mode : String)
    (hw : w1.dec_lo.length = w2.dec_lo.length) :
    ∀ (k : ℕ) (a b : List ℚ), a.length = b.length →
      List.Forall₂ (fun x y => x.length = y.length) (wavedec w1 mode k a)
        (wavedec w2 mode k b) := by
  intro k
  induction k with
  | zero =>
      intro a b hab
      exact List.Forall₂.cons hab List.Forall₂.nil
  | succ k ih =>
      intro a b hab
      simp only [wavedec]
      refine List.rel_append (ih _ _ ?_) (List.Forall₂.cons ?_ List.Forall₂.nil)
      · rw [dwt1_fst_length, dwt1_fst_length, hab, hw]
      · rw [dwt1_snd_length, dwt1_snd_length, hab, hw]

theorem foldlM_concat {α β : Type} (f : β → α → Except Err β) (l : List α) (a : α) :
    ∀ b : β, (l ++ [a]).foldlM f b = l.foldlM f b >>= fun b2 => f b2 a := by
  induction l with
  | nil =>
      intro b
      simp
  | cons x xs ih =>
      intro b
      simp only [List.cons_append, List.foldlM_cons, ih, bind_assoc]

theorem waverecPy_append (xs : List PyArr) (y : PyArr) (w : Wavelet) (mode : String)
    (hxs : xs ≠ []) :
    waverecPy (xs ++ [y]) w mode =
      waverecPy xs w mode >>= fun a => waverecStep w mode a y := by
  match xs, hxs with
  | [x], _ =>
      show waverecPy [x, y] w mode = _
      simp [waverecPy, bind_ok_eq]
  | x :: z :: zs, _ =>
      show waverecPy (x :: ((z :: zs) ++ [y])) w mode = _
      have h1 : waverecPy (x :: ((z :: zs) ++ [y])) w mode =
          ((z :: zs) ++ [y]).foldlM (waverecStep w mode) x := rfl
      have h2 : waverecPy (x :: z :: zs) w mode =
          (z :: zs).foldlM (waverecStep w mode) x := rfl
      rw [h1, h2, foldlM_concat]

theorem map_eq_concat_split {α : Type} (f : α → ℕ) :
    ∀ (ls : List α) (A : List ℕ) (x : ℕ), ls.map f = A ++ [x] →
      ∃ ls1 l2, ls = ls1 ++ [l2] ∧ ls1.map f = A ∧ f l2 = x := by
  intro ls
  induction ls with
  | nil =>
      intro A x h
      exact absurd h (by simp)
  | cons a as ih =>
      intro A x h
      cases A with
      | nil =>
          simp only [List.map_cons, List.nil_append] at h
          injection h with h1 h2
          have hnil : as = [] := by simpa using h2
          exact ⟨[], a, by simp [hnil], rfl, h1⟩
      | cons q Q =>
          simp only [List.map_cons, List.cons_append] at h
          injection h with h1 h2
          obtain ⟨ls1, l2, e1, e2, e3⟩ := ih Q x h2
          exact ⟨a :: ls1, l2, by simp [e1], by simp [e2, h1], e3⟩

theorem waverecStep_rvec (w : Wavelet) (mode : String) (r0 l2 : List ℚ) :
    waverecStep w mode (.rvec r0) (.rvec l2) =
      (idwtPy (if r0.length = l2.length + 1 then .rvec r0.dropLast else .rvec r0)
        (.rvec l2) w mode).map PyArr.rvec := by
  have h1 : waverecStep w mode (.rvec r0) (.rvec l2) =
      (idwtPy (if r0.length = l2.length + 1 then .rvec r0.dropLast else .rvec r0)
        (.rvec l2) w mode) >>= fun r => pure (.rvec r) := rfl
  rw [h1]
  cases idwtPy (if r0.length = l2.length + 1 then PyArr.rvec r0.dropLast else PyArr.rvec r0)
      (PyArr.rvec l2) w mode with
  | error e => rfl
  | ok r => rfl

theorem waverec_of_wavedecLens (w : Wavelet) (mode : String)
    (hL : 2 ≤ w.dec_lo.length) (hrec : w.rec_lo.length = w.dec_lo.length) :
    ∀ (k m : ℕ) (ls : List (List ℚ)), 1 ≤ m →
      ls.map List.length = wavedecLens w.dec_lo.length k m →
      ∃ r : List ℚ, waverecPy (ls.map PyArr.rvec) w mode = .ok (.rvec r) ∧
        (r.length = m ∨ r.length = m + 1) := by
  intro k
  induction k with
  | zero =>
      intro m ls hm hlens
      cases ls with
      | nil => exact absurd hlens (by simp [wavedecLens])
      | cons l rest =>
          simp only [wavedecLens, List.map_cons] at hlens
          injection hlens with h1 h2
          have hrest : rest = [] := by simpa using h2
          subst hrest
          exact ⟨l, rfl, Or.inl h1⟩
  | succ k ih =>
      intro m ls hm hlens
      have hml : wavedecLens w.dec_lo.length (k + 1) m =
          wavedecLens w.dec_lo.length k (dwtLen m w.dec_lo.length) ++
            [dwtLen m w.dec_lo.length] := rfl
      rw [hml] at hlens
      obtain ⟨ls1, l2, e1, e2, e3⟩ := map_eq_concat_split List.length ls _ _ hlens
      have hm2 : 1 ≤ dwtLen m w.dec_lo.length := dwtLen_pos m _ hm hL
      obtain ⟨r0, hr0, hr0len⟩ := ih (dwtLen m w.dec_lo.length) ls1 hm2 e2
      have hls1 : ls1 ≠ [] := by
        intro hnil
        rw [hnil] at e2
        have := wavedecLens_length w.dec_lo.length k (dwtLen m w.dec_lo.length)
        rw [← e2] at this
        simp at this
      subst e1
      rw [List.map_append, List.map_singleton,
        waverecPy_append _ _ _ _ (by simpa using hls1), hr0, bind_ok_eq,
        waverecStep_rvec]
      rcases hr0len with hcase | hcase
      · have hne : ¬(r0.length = l2.length + 1) := by omega
        rw [if_neg hne]
        have heq : r0.length = l2.length := by omega
        rw [idwtPy, if_pos heq]
        refine ⟨idwtCore r0 l2 w, rfl, ?_⟩
        rw [idwtCore_length, hcase, hrec]
        exact idwt_of_dwt_len m w.dec_lo.length hm hL
      · have heq : r0.length = l2.length + 1 := by omega
        rw [if_pos heq]
        have hdl : r0.dropLast.length = l2.length := by
          rw [List.length_dropLast]
          omega
        rw [idwtPy, if_pos hdl]
        refine ⟨idwtCore r0.dropLast l2 w, rfl, ?_⟩
        rw [idwtCore_length, hdl, e3, hrec]
        exact idwt_of_dwt_len m w.dec_lo.length hm hL

theorem dtSynthesisTree_ok_of_lens (first wav : Wavelet) (mode : String)
    (hLw : 2 ≤ wav.dec_lo.length) (hrw : wav.rec_lo.length = wav.dec_lo.length)
    (k m0 : ℕ) (hm0 : 1 ≤ m0) (rcs : List (List ℚ))
    (hlens : rcs.map List.length = wavedecLens wav.dec_lo.length k m0 ++ [m0]) :
    ∃ out : List ℚ, dtSynthesisTree (rcs.map PyArr.rvec) first wav mode = .ok out ∧
      out.length = 2 * m0 + 2 - first.rec_lo.length := by
  obtain ⟨ls1, l2, e1, e2, e3⟩ := map_eq_concat_split List.length rcs _ _ hlens
  subst e1
  have hls1 : ls1 ≠ [] := by
    intro hnil
    rw [hnil] at e2
    have := wavedecLens_length wav.dec_lo.length k m0
    rw [← e2] at this
    simp at this
  obtain ⟨r0, hr0, hr0len⟩ := waverec_of_wavedecLens wav mode hLw hrw k m0 ls1 hm0 e2
  rw [List.map_append, List.map_singleton]
  have hred : dtSynthesisTree (ls1.map PyArr.rvec ++ [PyArr.rvec l2]) first wav mode =
      idwtPy (if r0.length = l2.length + 1 then PyArr.rvec r0.dropLast else PyArr.rvec r0)
        (PyArr.rvec l2) first mode := by
    simp only [dtSynthesisTree, List.getLast?_concat, List.dropLast_concat, hr0, bind_ok_eq]
    rfl
  rw [hred]
  rcases hr0len with hcase | hcase
  · have hne : ¬(r0.length = l2.length + 1) := by omega
    rw [if_neg hne, idwtPy, if_pos (by omega)]
    refine ⟨idwtCore r0 l2 first, rfl, ?_⟩
    rw [idwtCore_length, hcase]
  · have heq : r0.length = l2.length + 1 := by omega
    rw [if_pos heq]
    have hdl : r0.dropLast.length = l2.length := by
      rw [List.length_dropLast]
      omega
    rw [idwtPy, if_pos hdl]
    refine ⟨idwtCore r0.dropLast l2 first, rfl, ?_⟩
    rw [idwtCore_length, hdl, e3]

theorem dt_first_stage_ok (w : Wavelet) (h1 : w.dec_lo ≠ []) (h2 : w.dec_hi ≠ [])
    (h3 : w.rec_lo ≠ []) (h4 : w.rec_hi ≠ []) :
    dt_first_stage w = .ok (w, shiftWavelet w) := by
  simp [dt_first_stage, h1, h2, h3, h4]

theorem combineTrees_ok (t1 t2 : List (List ℚ))
    (h : List.Forall₂ (fun a b => a.length = b.length) t1 t2) :
    combineTrees t1 t2 =
      .ok (List.zipWith (fun r m => PyArr.cvec (r.zip m)) t1 t2) := by
  induction h with
  | nil => rfl
  | @cons a b t1x t2x hab htail ih =>
      have hstep : combineTrees (a :: t1x) (b :: t2x) = (do
          let c ← (if a.length = b.length then Except.ok (PyArr.cvec (a.zip b))
            else Except.error Err.valueError)
          let cs ← combineTrees t1x t2x
          pure (c :: cs)) := by
        simp only [combineTrees, List.zip_cons_cons, List.mapM_cons]
      rw [hstep, if_pos hab, bind_ok_eq, ih, bind_ok_eq, pure_eq_ok,
        List.zipWith_cons_cons]

theorem dtanalysis_ok_structure (dtw : String → Wavelet × Wavelet) (data : List ℚ)
    (first_stage : Wavelet) (wavelet mode : String) (lv : ℕ) (hlv : 1 ≤ lv)
    (h1 : first_stage.dec_lo ≠ []) (h2 : first_stage.dec_hi ≠ [])
    (h3 : first_stage.rec_lo ≠ []) (h4 : first_stage.rec_hi ≠ [])
    (hw : (dtw wavelet).1.dec_lo.length = (dtw wavelet).2.dec_lo.length) :
    ∃ t1 t2 : List (List ℚ),
      dtAnalysisTree data first_stage (dtw wavelet).1 lv mode = .ok t1 ∧
      dtAnalysisTree data (shiftWavelet first_stage) (dtw wavelet).2 lv mode = .ok t2 ∧
      List.Forall₂ (fun x y => x.length = y.length) t1 t2 ∧
      t1.length = lv + 1 ∧
      dtanalysis dtw data first_stage wavelet (.int (lv : ℤ)) mode =
        .ok (.coeffs (List.zipWith (fun r m => PyArr.cvec (r.zip m)) t1 t2)) := by
  have hlv0 : lv ≠ 0 := by omega
  have hshift : (shiftWavelet first_stage).dec_lo.length = first_stage.dec_lo.length := by
    rw [shiftWavelet]
    exact shiftBank_length _ h1
  have hT1 : dtAnalysisTree data first_stage (dtw wavelet).1 lv mode =
      .ok (wavedec (dtw wavelet).1 mode (lv - 1) (dwt1 data first_stage mode).1 ++
        [(dwt1 data first_stage mode).2]) := by
    rw [dtAnalysisTree, if_neg hlv0]
  have hT2 : dtAnalysisTree data (shiftWavelet first_stage) (dtw wavelet).2 lv mode =
      .ok (wavedec (dtw wavelet).2 mode (lv - 1)
          (dwt1 data (shiftWavelet first_stage) mode).1 ++
        [(dwt1 data (shiftWavelet first_stage) mode).2]) := by
    rw [dtAnalysisTree, if_neg hlv0]
  have hF2 : List.Forall₂ (fun x y => x.length = y.length)
      (wavedec (dtw wavelet).1 mode (lv - 1) (dwt1 data first_stage mode).1 ++
        [(dwt1 data first_stage mode).2])
      (wavedec (dtw wavelet).2 mode (lv - 1)
          (dwt1 data (shiftWavelet first_stage) mode).1 ++
        [(dwt1 data (shiftWavelet first_stage) mode).2]) := by
    refine List.rel_append (wavedec_forall2 _ _ mode hw _ _ _ ?_)
      (List.Forall₂.cons ?_ List.Forall₂.nil)
    · rw [dwt1_fst_length, dwt1_fst_length, hshift]
    · rw [dwt1_snd_length, dwt1_snd_length, hshift]
  have hfs := dt_first_stage_ok first_stage h1 h2 h3 h4
  refine ⟨_, _, hT1, hT2, hF2, ?_, ?_⟩
  · rw [List.length_append, wavedec_length]
    simp
    omega
  · have hneg : ¬((lv : ℤ) < 0) := by omega
    have hzero : ¬((lv : ℤ) = 0) := by omega
    simp only [dtanalysis, hfs, bind_ok_eq, if_neg hneg, if_neg hzero, Int.toNat_natCast,
      dtanalysisCore, hT1, hT2, combineTrees_ok _ _ hF2, pure_eq_ok]

/-- C5: for a positive level up to the computed maximum, `dtanalysis`
returns a coefficient list of exactly `L + 1` entries, each entry the
complex combination of the corresponding entries of the two single
analysis trees — real part from tree 1 (unshifted first stage, real
steady-state wavelet), imaginary part from tree 2 (shifted first
stage, imaginary steady-state wavelet); each tree list is ordered
`[cA_L, cD_L, ..., cD_1]` by construction of `dtAnalysisTree`. -/
theorem dtanalysis_coeff_list_shape (dtw : String → Wavelet × Wavelet) (data : List ℚ)
    (first_stage : Wavelet) (wavelet mode : String) (L : ℕ)
    (hL : 1 ≤ L) (hmax : L ≤ dt_max_level dtw data first_stage wavelet)
    (h1 : first_stage.dec_lo ≠ []) (h2 : first_stage.dec_hi ≠ [])
    (h3 : first_stage.rec_lo ≠ []) (h4 : first_stage.rec_hi ≠ [])
    (hw : (dtw wavelet).1.dec_lo.length = (dtw wavelet).2.dec_lo.length) :
    ∃ t1 t2 : List (List ℚ),
      dtAnalysisTree data first_stage (dtw wavelet).1 L mode = .ok t1 ∧
      dtAnalysisTree data (shiftWavelet first_stage) (dtw wavelet).2 L mode = .ok t2 ∧
      dtanalysis dtw data first_stage wavelet (.int (L : ℤ)) mode =
        .ok (.coeffs (List.zipWith (fun r m => PyArr.cvec (r.zip m)) t1 t2)) ∧
      (List.zipWith (fun r m => PyArr.cvec (r.zip m)) t1 t2).length = L + 1 := by
  obtain ⟨t1, t2, hT1, hT2, hF2, hlen1, hdt⟩ :=
    dtanalysis_ok_structure dtw data first_stage wavelet mode L hL h1 h2 h3 h4 hw
  refine ⟨t1, t2, hT1, hT2, hdt, ?_⟩
  rw [List.length_zipWith, ← hF2.length_eq, hlen1, Nat.min_self]

/-- Witness for C5 at a concrete length-4 signal and level 1. -/
theorem dtanalysis_coeff_list_shape_witness :
    (1 ≤ 1 ∧ 1 ≤ dt_max_level dtwTest [1, 2, 3, 4] wavTest "qshift_a") ∧
      ∃ t1 t2 : List (List ℚ),
        dtAnalysisTree [1, 2, 3, 4] wavTest (dtwTest "qshift_a").1 1 "symmetric" = .ok t1 ∧
        dtAnalysisTree [1, 2, 3, 4] (shiftWavelet wavTest) (dtwTest "qshift_a").2 1
          "symmetric" = .ok t2 ∧
        dtanalysis dtwTest [1, 2, 3, 4] wavTest "qshift_a" (.int ((1 : ℕ) : ℤ))
          "symmetric" =
          .ok (.coeffs (List.zipWith (fun r m => PyArr.cvec (r.zip m)) t1 t2)) ∧
        (List.zipWith (fun r m => PyArr.cvec (r.zip m)) t1 t2).length = 1 + 1 :=
  ⟨⟨by decide, by decide⟩,
    dtanalysis_coeff_list_shape dtwTest [1, 2, 3, 4] wavTest "qshift_a" "symmetric" 1
      (by decide) (by decide) (by decide) (by decide) (by decide) (by decide) rfl⟩

theorem map_pyRe_map_cvec (Z : List (List (ℚ × ℚ))) :
    (Z.map PyArr.cvec).map pyRe = (Z.map (List.map Prod.fst)).map PyArr.rvec := by
  simp only [List.map_map]
  rfl

theorem map_pyIm_map_cvec (Z : List (List (ℚ × ℚ))) :
    (Z.map PyArr.cvec).map pyIm = (Z.map (List.map Prod.snd)).map PyArr.rvec := by
  simp only [List.map_map]
  rfl

theorem map_length_map_inner {α β : Type} (g : α → β) (Z : List (List α)) :
    (Z.map (List.map g)).map List.length = Z.map List.length := by
  simp [List.map_map, Function.comp]

theorem zipWith_zip_map_length (t1 t2 : List (List ℚ))
    (h : List.Forall₂ (fun a b => a.length = b.length) t1 t2) :
    (List.zipWith (fun r m => r.zip m) t1 t2).map List.length = t1.map List.length := by
  induction h with
  | nil => rfl
  | @cons a b t1x t2x hab htail ih =>
      simp only [List.zipWith_cons_cons, List.map_cons, ih, List.length_zip, hab,
        Nat.min_self]

theorem dtsynthesis_ok_of_trees (dtw : String → Wavelet × Wavelet) (first_stage : Wavelet)
    (wavelet mode : String) (fp : Wavelet × Wavelet)
    (hfs : dt_first_stage first_stage = .ok fp)
    (coeffs : List PyArr) (r m : List ℚ) (h2 : 2 ≤ coeffs.length)
    (hr : dtSynthesisTree (coeffs.map pyRe) fp.1 (dtw wavelet).1 mode = .ok r)
    (hm : dtSynthesisTree (coeffs.map pyIm) fp.2 (dtw wavelet).2 mode = .ok m)
    (hlen : r.length = m.length) :
    dtsynthesis dtw coeffs first_stage wavelet mode =
      .ok (.rvec (List.zipWith (fun x y => (1 / 2 : ℚ) * (x + y)) r m)) := by
  match coeffs, h2 with
  | a :: b :: t, _ =>
      simp only [List.map_cons] at hr hm
      simp only [dtsynthesis, hfs, bind_ok_eq, List.map_cons, hr, hm, npMean, hlen,
        eq_self_iff_true, if_true, pure_eq_ok]

/-- Counterexample for C7: on a length-2 input whose computed maximum
level is 0, a requested level of 1 is clamped to 0 and the call then
fails with a `TypeError` (the level-0 defect) instead of returning an
array of the input's shape. -/
theorem dt_approx_rec_clamp_to_zero_fails :
    dt_approx_rec dtwTest4 (.d1 [0, 0]) (.int 1) wavTest4 "qshift_a" [] =
      .error .typeError := by
  with_unfolding_all rfl

/-- C7 (amended): for a nonempty 1-d input and genuine filter banks,
whenever the resolved (clamped) level is at least 1, `dt_approx_rec`
returns an array of exactly the input's length, emitting the
level-too-high warning precisely when an integer level above the
computed maximum was clamped; when the resolved level is 0 (a short
input) the call instead fails through the level-0 defect. -/
theorem dt_approx_rec_size_preservation (dtw : String → Wavelet × Wavelet) (data : List ℚ)
    (level : Lvl) (first_stage : Wavelet) (wavelet : String) (mask : List Bool)
    (hd : data ≠ [])
    (hf1 : 2 ≤ first_stage.dec_lo.length) (hf2 : first_stage.dec_hi ≠ [])
    (hf3 : first_stage.rec_lo.length = first_stage.dec_lo.length)
    (hf4 : first_stage.rec_hi ≠ [])
    (hr1 : 2 ≤ (dtw wavelet).1.dec_lo.length)
    (hr2 : (dtw wavelet).1.rec_lo.length = (dtw wavelet).1.dec_lo.length)
    (hi1 : (dtw wavelet).2.dec_lo.length = (dtw wavelet).1.dec_lo.length)
    (hi2 : (dtw wavelet).2.rec_lo.length = (dtw wavelet).2.dec_lo.length)
    (hres : 1 ≤ resolvedLevel level (dt_max_level dtw data first_stage wavelet)) :
    ∃ out : List ℚ,
      dt_approx_rec dtw (.d1 data) level first_stage wavelet mask =
        .ok (.rvec out, warnFlag level (dt_max_level dtw data first_stage wavelet)) ∧
      out.length = data.length := by
  have hn : 1 ≤ data.length := List.length_pos.mpr hd
  have hfd : first_stage.dec_lo ≠ [] := by
    intro h
    rw [h] at hf1
    simp at hf1
  have hfr : first_stage.rec_lo ≠ [] := by
    intro h
    rw [h] at hf3
    simp at hf3
    omega
  obtain ⟨lvN, hlvN⟩ : ∃ k : ℕ,
      (k : ℤ) = resolvedLevel level (dt_max_level dtw data first_stage wavelet) :=
    ⟨(resolvedLevel level (dt_max_level dtw data first_stage wavelet)).toNat, by omega⟩
  have hlv1 : 1 ≤ lvN := by omega
  obtain ⟨t1, t2, hT1, hT2, hF2, hlen1, hdt⟩ :=
    dtanalysis_ok_structure dtw data first_stage wavelet EXTENSION_MODE lvN hlv1
      hfd hf2 hfr hf4 hi1.symm
  obtain ⟨Z, hZ⟩ : ∃ Z, Z = List.zipWith (fun r m => r.zip m) t1 t2 := ⟨_, rfl⟩
  have hcs : List.zipWith (fun r m => PyArr.cvec (r.zip m)) t1 t2 = Z.map PyArr.cvec := by
    rw [hZ, List.map_zipWith]
  have hZlens : Z.map List.length = t1.map List.length := by
    rw [hZ]
    exact zipWith_zip_map_length t1 t2 hF2
  have hZlen : Z.length = lvN + 1 := by
    rw [hZ, List.length_zipWith, ← hF2.length_eq, hlen1, Nat.min_self]
  obtain ⟨z0, ztail, hZd⟩ : ∃ z0 ztail, Z = z0 :: ztail := by
    cases hz : Z with
    | nil => rw [hz] at hZlen; simp at hZlen
    | cons a t => exact ⟨a, t, rfl⟩
  have hT1e : t1 = wavedec (dtw wavelet).1 EXTENSION_MODE (lvN - 1)
      (dwt1 data first_stage EXTENSION_MODE).1 ++
      [(dwt1 data first_stage EXTENSION_MODE).2] := by
    have h := hT1
    rw [dtAnalysisTree, if_neg (by omega : ¬(lvN = 0))] at h
    injection h with h2
    exact h2.symm
  have ht1lens : t1.map List.length =
      wavedecLens (dtw wavelet).1.dec_lo.length (lvN - 1)
        (dwtLen data.length first_stage.dec_lo.length) ++
        [dwtLen data.length first_stage.dec_lo.length] := by
    rw [hT1e, List.map_append, wavedec_map_length, dwt1_fst_length, List.map_singleton,
      dwt1_snd_length]
  have hm0 : 1 ≤ dwtLen data.length first_stage.dec_lo.length := dwtLen_pos _ _ hn hf1
  obtain ⟨ZZ, hZZ⟩ : ∃ ZZ,
      ZZ = z0 :: ztail.map (fun l => l.map (fun _ => ((0 : ℚ), (0 : ℚ)))) := ⟨_, rfl⟩
  have hZZlens : ZZ.map List.length = Z.map List.length := by
    rw [hZZ, hZd]
    simp only [List.map_cons, List.map_map]
    congr 1
    simp [Function.comp]
  have hLw2 : 2 ≤ (dtw wavelet).2.dec_lo.length := by omega
  have hlensR : (ZZ.map (List.map Prod.fst)).map List.length =
      wavedecLens (dtw wavelet).1.dec_lo.length (lvN - 1)
        (dwtLen data.length first_stage.dec_lo.length) ++
        [dwtLen data.length first_stage.dec_lo.length] := by
    rw [map_length_map_inner, hZZlens, hZlens, ht1lens]
  obtain ⟨r, hRt, hrlen⟩ := dtSynthesisTree_ok_of_lens first_stage (dtw wavelet).1
    EXTENSION_MODE hr1 hr2 (lvN - 1) (dwtLen data.length first_stage.dec_lo.length) hm0
    (ZZ.map (List.map Prod.fst)) hlensR
  have hlensI : (ZZ.map (List.map Prod.snd)).map List.length =
      wavedecLens (dtw wavelet).2.dec_lo.length (lvN - 1)
        (dwtLen data.length first_stage.dec_lo.length) ++
        [dwtLen data.length first_stage.dec_lo.length] := by
    rw [map_length_map_inner, hZZlens, hZlens, ht1lens, hi1]
  obtain ⟨mm, hMt, hmlen⟩ := dtSynthesisTree_ok_of_lens (shiftWavelet first_stage)
    (dtw wavelet).2 EXTENSION_MODE hLw2 hi2 (lvN - 1)
    (dwtLen data.length first_stage.dec_lo.length) hm0
    (ZZ.map (List.map Prod.snd)) hlensI
  have hshift_rec : (shiftWavelet first_stage).rec_lo.length =
      first_stage.rec_lo.length := shiftBank_length _ hfr
  have hrm : r.length = mm.length := by rw [hrlen, hmlen, hshift_rec]
  have hfsok := dt_first_stage_ok first_stage hfd hf2 hfr hf4
  have hr2x : dtSynthesisTree ((ZZ.map PyArr.cvec).map pyRe) first_stage (dtw wavelet).1
      EXTENSION_MODE = .ok r := by
    rw [map_pyRe_map_cvec]
    exact hRt
  have hm2x : dtSynthesisTree ((ZZ.map PyArr.cvec).map pyIm) (shiftWavelet first_stage)
      (dtw wavelet).2 EXTENSION_MODE = .ok mm := by
    rw [map_pyIm_map_cvec]
    exact hMt
  have hZZlen2 : 2 ≤ (ZZ.map PyArr.cvec).length := by
    have h1 : ZZ.length = Z.length := by
      have := congrArg List.length hZZlens
      simpa using this
    rw [List.length_map]
    omega
  have hsynth := dtsynthesis_ok_of_trees dtw first_stage wavelet EXTENSION_MODE
    (first_stage, shiftWavelet first_stage) hfsok (ZZ.map PyArr.cvec) r mm hZZlen2
    hr2x hm2x hrm
  have happrox : approxSynth dtw (.coeffs (Z.map PyArr.cvec)) first_stage wavelet =
      dtsynthesis dtw (ZZ.map PyArr.cvec) first_stage wavelet EXTENSION_MODE := by
    rw [hZd, hZZ]
    simp only [List.map_cons, approxSynth]
    congr 1
    simp only [List.map_map]
    congr 1
  have hslen : (List.zipWith (fun x y => (1 / 2 : ℚ) * (x + y)) r mm).length =
      2 * dwtLen data.length first_stage.dec_lo.length + 2 -
        first_stage.rec_lo.length := by
    rw [List.length_zipWith, hrlen, hmlen, hshift_rec, Nat.min_self]
  have hN : 2 * dwtLen data.length first_stage.dec_lo.length + 2 -
        first_stage.rec_lo.length = data.length ∨
      2 * dwtLen data.length first_stage.dec_lo.length + 2 -
        first_stage.rec_lo.length = data.length + 1 := by
    rw [hf3]
    exact idwt_of_dwt_len data.length first_stage.dec_lo.length hn hf1
  have hun : dt_approx_rec dtw (.d1 data) level first_stage wavelet mask = (do
      let out ← dtanalysis dtw data first_stage wavelet
        (.int (resolvedLevel level (dt_max_level dtw data first_stage wavelet)))
        EXTENSION_MODE
      let recon ← approxSynth dtw out first_stage wavelet
      let res ← reconcile data recon
      pure (res, warnFlag level (dt_max_level dtw data first_stage wavelet))) := rfl
  rcases hN with hNn | hNn
  · refine ⟨List.zipWith (fun x y => (1 / 2 : ℚ) * (x + y)) r mm, ?_, ?_⟩
    · rw [hun, ← hlvN]
      simp only [hdt, hcs, bind_ok_eq, happrox, hsynth]
      have hrec : reconcile data
          (.rvec (List.zipWith (fun x y => (1 / 2 : ℚ) * (x + y)) r mm)) =
          .ok (.rvec (List.zipWith (fun x y => (1 / 2 : ℚ) * (x + y)) r mm)) := by
        rw [reconcile, if_pos]
        rw [pySize, hslen, hNn]
      simp only [hrec, bind_ok_eq, pure_eq_ok]
    · rw [hslen, hNn]
  · refine ⟨(List.zipWith (fun x y => (1 / 2 : ℚ) * (x + y)) r mm).take data.length,
      ?_, ?_⟩
    · rw [hun, ← hlvN]
      simp only [hdt, hcs, bind_ok_eq, happrox, hsynth]
      have hrec : reconcile data
          (.rvec (List.zipWith (fun x y => (1 / 2 : ℚ) * (x + y)) r mm)) =
          .ok (.rvec ((List.zipWith (fun x y => (1 / 2 : ℚ) * (x + y)) r mm).take
            data.length)) := by
        rw [reconcile, if_neg (by rw [pySize, hslen, hNn]; omega),
          if_pos (by rw [pySize, hslen, hNn]; omega)]
      simp only [hrec, bind_ok_eq, pure_eq_ok]
    · rw [List.length_take, hslen, hNn]
      omega

/-- Witness for C7: a concrete length-4 signal with requested level 99,
which is clamped to the computed maximum 2 with the warning emitted,
and the output length still matches the input length. -/
theorem dt_approx_rec_size_preservation_witness :
    (1 ≤ resolvedLevel (.int 99) (dt_max_level dtwTest [1, 2, 3, 4] wavTest "qshift_a")) ∧
      ∃ out : List ℚ,
        dt_approx_rec dtwTest (.d1 [1, 2, 3, 4]) (.int 99) wavTest "qshift_a" [] =
          .ok (.rvec out,
            warnFlag (.int 99) (dt_max_level dtwTest [1, 2, 3, 4] wavTest "qshift_a")) ∧
        out.length = ([1, 2, 3, 4] : List ℚ).length :=
  ⟨by decide,
    dt_approx_rec_size_preservation dtwTest [1, 2, 3, 4] (.int 99) wavTest "qshift_a" []
      (by decide) (by decide) (by decide) rfl (by decide) (by decide) rfl rfl rfl
      (by decide)⟩
